import Mathlib

/-!
Verification of the firmament reconciliation core against its source.

Every definition below is a shallow embedding of a function of the
repository (file and line references are given on each definition), except
the few that are explicitly marked as modelled from the spec because the
code they embed is referenced but not present under src/.
-/

namespace Firmament

/-- A filesystem path, as its list of components below the root.
The string path "/a/b" corresponds to the component list ["a", "b"], and the
root "/" corresponds to []. pathlib parent corresponds to List.dropLast,
and the parent of the root is the root itself. -/
abbrev FPath := List String

/-- One iteration bound of the while loop in resolve_status: each pass
strips one component, so the component count bounds the iterations and the
zero-fuel case is unreachable from resolveStatus below. -/
def resolveStatusLoop (store : FPath → Option String) : Nat → FPath → String
  | 0, _ => "on-demand"
  | fuel + 1, p =>
    if p = [] then "on-demand"
    else
      match store p with
      | some s => s
      | none => resolveStatusLoop store fuel p.dropLast

/-- Embedding of datastore.py:217-228, PathRequest.resolve_status.
The source loops `while path_obj != path_obj.parent`, consulting the store
at the current path and then moving to the parent; when the loop exits it
returns the default "on-demand". Since Path("/").parent == Path("/"), the
loop body never runs for the root, so an entry stored at the root is never
consulted: an input equal to the root immediately returns the default, and
a longer input stops after its length-1 ancestor. -/
def resolveStatus (store : FPath → Option String) (p : FPath) : String :=
  resolveStatusLoop store p.length p

/-- Metadata of one FileVersion entry, from types.py:4-7 (FileVersionMeta). -/
structure FVMeta where
  mtime : Nat
  size : Nat
deriving DecidableEq, Repr

/-- One LocalVersion record, from types.py:12-16 (LocalVersionData). -/
structure LVData where
  content_hash : Option String
  mtime : Nat
  size : Nat
  last_hashed : Option Nat
deriving DecidableEq, Repr

/-- Association list with FPath keys, standing for one LMDB-backed store
keyed by path (datastore.py). Keys are unique in every store the code
builds, and the helpers below implement dict semantics on it. -/
abbrev Assoc (β : Type) := List (FPath × β)

/-- Point lookup in a path-keyed store. -/
def assocGet (l : Assoc β) (k : FPath) : Option β :=
  (l.find? (fun e => e.1 == k)).map Prod.snd

/-- Containment test in a path-keyed store. -/
def assocHas (l : Assoc β) (k : FPath) : Bool :=
  l.any (fun e => e.1 == k)

/-- Dict-style write: replace in place when the key exists, append when new. -/
def assocSet (l : Assoc β) (k : FPath) (v : β) : Assoc β :=
  if assocHas l k then l.map (fun e => if e.1 == k then (k, v) else e)
  else l ++ [(k, v)]

/-- Deletion of a key, from DiskDatastore.delete (datastore.py:58-65). -/
def assocDel (l : Assoc β) (k : FPath) : Assoc β :=
  l.filter (fun e => !(e.1 == k))

/-- Embedding of datastore.py:194-205, FileVersion.most_recent_content
applied to the per-path dict of content hash to meta. The source sorts the
items by mtime descending with a stable sort and takes the head, which is
the first item attaining the maximal mtime; an absent path or an empty
dict yields (None, None). -/
def mostRecentContent (entries : List (String × FVMeta)) : Option (String × FVMeta) :=
  entries.foldl
    (fun acc e =>
      match acc with
      | none => some e
      | some a => if e.2.mtime > a.2.mtime then some e else some a)
    none

/-- most_recent_content looked up through the FileVersion store. -/
def mostRecentContentOf (fv : Assoc (List (String × FVMeta))) (p : FPath) :
    Option (String × FVMeta) :=
  match assocGet fv p with
  | none => none
  | some entries => mostRecentContent entries

/-- Modelled from the spec: the constant DELETED_CONTENT_HASH is imported
from firmament.constants at local_create.py:3 but constants.py under src/
does not define it. Spec section 3 and the glossary fix it as the sentinel
content hash for tombstones, and src/firmament/database.py:17 documents the
same special value. -/
def DELETED_CONTENT_HASH : String := "__deleted__"

/-- Modelled from the spec: FileVersion.deleted_paths is called at
local_create.py:22 and exercised by tests/test_datastore.py:404-415, but
datastore.py under src/ does not define it. Spec section 4.6 describes it
as the paths whose mtime-maximum entry is the deleted sentinel. -/
def deletedPaths (fv : Assoc (List (String × FVMeta))) : List FPath :=
  (fv.filter
    (fun e =>
      match mostRecentContent e.2 with
      | some (h, _) => h == DELETED_CONTENT_HASH
      | none => false)).map Prod.fst

/-!
File-version metadata merging, backends/base.py.
-/

/-- A decoded file-versions database: path to (content hash to meta), the
FileVersionSet of backends/base.py:15. Dicts are modelled as partial maps,
since msgpack dicts have unique keys. -/
def FVSet : Type := String → Option (String → Option FVMeta)

/-- Lookup of one (path, content hash) pair in a FileVersionSet. -/
def fvLookup2 (f : FVSet) (p h : String) : Option FVMeta :=
  (f p).bind (fun c => c h)

/-- Membership of a (path, content hash) pair in a FileVersionSet. -/
def fvPairMem (f : FVSet) (p h : String) : Prop :=
  (fvLookup2 f p h).isSome = true

instance (f : FVSet) (p h : String) : Decidable (fvPairMem f p h) := by
  unfold fvPairMem; infer_instance

/-- Embedding of the merge in backends/base.py:272-277 (and identically in
backends/local.py:123-128): for each path of the incoming set, the
existing inner dict (created empty when the path is new) receives every
(content hash, meta) pair of the incoming inner dict, the incoming meta
overwriting on an equal pair. -/
def fvMerge (existing incoming : FVSet) : FVSet :=
  fun p =>
    match incoming p with
    | none => existing p
    | some inc =>
      some (fun h =>
        match inc h with
        | some m => some m
        | none =>
          match existing p with
          | none => none
          | some ex => ex h)

/-- Outcome of one file_version_upload call: the resulting remote database,
or the OSError raised at backends/base.py:290 after the retry budget. -/
inductive UploadOutcome where
  | ok (remote : FVSet)
  | raised
deriving Nonempty

/-- Embedding of the retry loop of backends/base.py:262-290. At attempt i
the current remote database is read; the write back with the observed
version token either succeeds, installing the merge, or fails with
VersionError because a concurrent writer changed the remote in between
(the adversary value at i gives the remote it installed). A VersionError
continues the loop; an exhausted budget raises. -/
def fvUploadGo (adv : Nat → Option FVSet) (s : FVSet) :
    FVSet → Nat → Nat → UploadOutcome
  | _, _, 0 => .raised
  | remote, i, fuel + 1 =>
    match adv i with
    | some interfering => fvUploadGo adv s interfering (i + 1) fuel
    | none => .ok (fvMerge remote s)

/-- file_version_upload (backends/base.py:254-290): up to 100 attempts of
the read-merge-write loop. -/
def fvUpload (adv : Nat → Option FVSet) (s : FVSet) (remote : FVSet) : UploadOutcome :=
  fvUploadGo adv s remote 0 100

/-- The remote database after a sequence of file_version_upload calls that
all succeed on their first attempt: each call reads the current remote and
installs its merge. -/
def fvUploadSeq (remote : FVSet) (ss : List FVSet) : FVSet :=
  ss.foldl fvMerge remote

/-- file_version_download (backends/base.py:243-252) returns the decoded
remote database. -/
def fvDownload (remote : FVSet) : FVSet := remote

/-!
Chunked AES-GCM stream, encryptors/aes.py.
-/

/-- Byte strings are lists of byte values. -/
abbrev Bytes := List Nat

/-- The AES-GCM primitive of the cryptography library, behind
AESGCM.encrypt and AESGCM.decrypt as called at encryptors/aes.py:35 and
aes.py:102. enc maps a nonce and a plaintext to ciphertext plus tag; dec
returns none when the library raises InvalidTag. The chunking layer under
verification never looks inside these, so the stream theorems take the
authenticated-encryption properties they need as explicit hypotheses. -/
structure Cipher where
  enc : Bytes → Bytes → Bytes
  dec : Bytes → Bytes → Option Bytes

/-- The chunking loop with its iteration bound: every pass with a
positive chunk size consumes at least one byte, so the byte count bounds
the iterations and the zero-fuel case is unreachable from chunksOf below. -/
def chunksOfLoop (cs : Nat) : Nat → Bytes → List Bytes
  | 0, _ => []
  | fuel + 1, p =>
    if p = [] ∨ cs = 0 then []
    else p.take cs :: chunksOfLoop cs fuel (p.drop cs)

/-- The fixed-size plaintext chunks produced by the reads at
encryptors/aes.py:29: read(chunk_size) yields successive chunk_size-byte
pieces and an empty read ends the stream. A zero chunk size reproduces the
Python behavior that read(0) returns an empty bytes object at once. -/
def chunksOf (cs : Nat) (p : Bytes) : List Bytes :=
  chunksOfLoop cs p.length p

/-- struct.pack of a u32 big-endian length, encryptors/aes.py:38. -/
def u32be (n : Nat) : Bytes :=
  [n / 2 ^ 24 % 256, n / 2 ^ 16 % 256, n / 2 ^ 8 % 256, n % 256]

/-- struct.unpack of a u32 big-endian length, encryptors/aes.py:95. -/
def be32 (b : Bytes) : Nat :=
  match b with
  | [a, b, c, d] => a * 2 ^ 24 + b * 2 ^ 16 + c * 2 ^ 8 + d
  | _ => 0

/-- One framed chunk as built by _EncryptingStream._encrypt_chunk
(encryptors/aes.py:28-38): 4-byte big-endian length of (nonce plus
ciphertext), then the nonce, then the ciphertext with its tag. -/
def encChunk (C : Cipher) (nonce chunk : Bytes) : Bytes :=
  let chunkData := nonce ++ C.enc nonce chunk
  u32be chunkData.length ++ chunkData

/-- The frames of a list of (nonce, chunk) pairs, concatenated. -/
def encFrames (C : Cipher) (l : List (Bytes × Bytes)) : Bytes :=
  (l.map (fun nc => encChunk C nc.1 nc.2)).flatten

/-- A full read of _EncryptingStream (encryptors/aes.py:40-54): the
plaintext is cut into chunk_size pieces, each framed with the fresh random
nonce the source draws at aes.py:34, here supplied per chunk index. -/
def encStream (C : Cipher) (nonces : Nat → Bytes) (cs : Nat) (p : Bytes) : Bytes :=
  encFrames C ((chunksOf cs p).enum.map (fun ic => (nonces ic.1, ic.2)))

/-- The two exception classes a read of _DecryptingStream can raise:
struct.error from unpacking a short length prefix (aes.py:95) and
InvalidTag from AESGCM.decrypt (aes.py:102). -/
inductive DecErr where
  | structError
  | authError
deriving DecidableEq, Repr

/-- The chunk-reading loop of _DecryptingStream with its iteration bound:
every pass past the length check consumes at least four bytes, so the byte
count bounds the iterations and the zero-fuel case is unreachable from
decStream below. -/
def decStreamLoop (C : Cipher) : Nat → Bytes → Except DecErr Bytes
  | 0, _ => .ok []
  | fuel + 1, rem =>
    if rem = [] then .ok []
    else if rem.length < 4 then .error .structError
    else
      let chunkLen := be32 (rem.take 4)
      let rest := rem.drop 4
      let chunkData := rest.take chunkLen
      match C.dec (chunkData.take 12) (chunkData.drop 12) with
      | none => .error .authError
      | some plaintext =>
        match decStreamLoop C fuel (rest.drop chunkLen) with
        | .ok tl => .ok (plaintext ++ tl)
        | .error e => .error e

/-- A full read of _DecryptingStream (encryptors/aes.py:88-118). Each
round reads a 4-byte length prefix (an empty read is clean end of stream;
a short one makes struct.unpack raise), then reads that many bytes of
chunk data, splits it as 12-byte nonce plus ciphertext, and decrypts,
appending the plaintext to the result; InvalidTag aborts the read. -/
def decStream (C : Cipher) (rem : Bytes) : Except DecErr Bytes :=
  decStreamLoop C rem.length rem

/-!
S3 compare-and-set write, backends/s3.py.
-/

/-- The VersionError raised by the HEAD check of S3Backend.remote_write_io
(backends/s3.py:148 and s3.py:155). -/
inductive S3WriteErr where
  | versionError
deriving DecidableEq, Repr

/-- Result of one S3Backend.remote_write_io call on one remote object:
the object state after the call (its ETag when present), whether a PUT
was issued, and the error raised if any. -/
structure S3WriteResult where
  remote : Option String
  putIssued : Bool
  error : Option S3WriteErr
deriving DecidableEq, Repr

/-- Embedding of backends/s3.py:104-163, S3Backend.remote_write_io,
restricted to its version logic on one object. cur is the ETag the HEAD
request observes (none for a 404), overVersion the expected version
argument, newTag the ETag the PUT would give the object. The source guards
the HEAD check with the Python truthiness test `if over_version:` at
s3.py:139, which an empty string fails just like None; on a passed or
skipped check the PUT runs unconditionally. -/
def s3RemoteWrite (cur : Option String) (overVersion : Option String)
    (newTag : String) : S3WriteResult :=
  if overVersion.getD "" ≠ "" then
    match cur with
    | none => ⟨cur, false, some .versionError⟩
    | some t =>
      if t ≠ overVersion.getD "" then ⟨cur, false, some .versionError⟩
      else ⟨some newTag, true, none⟩
  else ⟨some newTag, true, none⟩

/-!
The local materializer, operators/local_create.py.
-/

/-- The observable disk and store actions of one LocalCreateOperator step,
in the order the source performs them. -/
inductive CreateEvent where
  | unlink (p : FPath)
  | lvDelete (p : FPath)
  | download (hash : String) (tmp : FPath)
  | setMtime (tmp : FPath) (mtime : Nat)
  | lvInsert (p : FPath) (lv : LVData)
  | rename (tmp : FPath) (p : FPath)
deriving DecidableEq, Repr

/-- The sibling temporary file of local_create.py:53-55: the target name
prefixed with the temp marker, in the same directory. -/
def tempDestination (p : FPath) : FPath :=
  p.dropLast ++ [".firmament-temp." ++ p.getLastD ""]

/-- Running state of the creation loop of local_create.py:34-83: the
LocalVersion store, the actions taken so far, and the created counter. -/
structure CreateLoopState where
  lv : Assoc LVData
  events : List CreateEvent
  created : Nat
deriving Repr

/-- The body of the creation loop, local_create.py:36-83, for one
candidate path. Paths whose policy resolves to on-demand or ignore are
skipped, as are paths without a most recent content or whose most recent
content is the deleted sentinel, and paths held by no backend (each
backend is its content_exists predicate). Otherwise the source downloads
into the sibling temporary file, sets its mtime from the metadata, inserts
a LocalVersion with a null content hash (local_create.py:74), and then
renames the temporary file over the target (local_create.py:81). -/
def createOnePath (pr : FPath → Option String) (fv : Assoc (List (String × FVMeta)))
    (backends : List (String → Bool)) (st : CreateLoopState) (path : FPath) :
    CreateLoopState :=
  let status := resolveStatus pr path
  if status = "on-demand" ∨ status = "ignore" then st
  else
    match mostRecentContentOf fv path with
    | none => st
    | some (h, meta) =>
      if h = DELETED_CONTENT_HASH then st
      else
        match backends.find? (fun exists_ => exists_ h) with
        | none => st
        | some _ =>
          let tmp := tempDestination path
          let lvNew : LVData := ⟨none, meta.mtime, meta.size, none⟩
          { lv := assocSet st.lv path lvNew
            events := st.events ++
              [.download h tmp, .setMtime tmp meta.mtime,
               .lvInsert path lvNew, .rename tmp path]
            created := st.created + 1 }

/-- The creation loop of local_create.py:34-35 over the candidate paths,
with its break condition `if created > self.max_per_loop: break` checked
at the top of each iteration. -/
def createLoop (pr : FPath → Option String) (fv : Assoc (List (String × FVMeta)))
    (backends : List (String → Bool)) (maxPerLoop : Nat) :
    List FPath → CreateLoopState → CreateLoopState
  | [], st => st
  | p :: rest, st =>
    if st.created > maxPerLoop then st
    else createLoop pr fv backends maxPerLoop rest (createOnePath pr fv backends st p)

/-- The deletion pass of local_create.py:21-29: for every tombstoned
FileVersion path still holding a LocalVersion, unlink the on-disk file
when present and drop the LocalVersion. disk tells whether the target file
exists. Returns the actions, the LocalVersion store, and the deleted
counter. -/
def createDeletionPhase (fv : Assoc (List (String × FVMeta))) (lv : Assoc LVData)
    (disk : FPath → Bool) : List CreateEvent × Assoc LVData × Nat :=
  (deletedPaths fv).foldl
    (fun acc path =>
      if assocHas acc.2.1 path then
        ((acc.1 ++ if disk path then [.unlink path] else []) ++ [.lvDelete path],
         assocDel acc.2.1 path, acc.2.2 + 1)
      else acc)
    ([], lv, 0)

/-- Embedding of LocalCreateOperator.step, local_create.py:17-84, with the
class attribute max_per_loop = 20 of local_create.py:15. The deletion pass
runs first; then the candidate paths are the FileVersion paths without a
LocalVersion (the source iterates them as a Python set, whose order is
unspecified; the store order is used here), and the creation loop runs
over them. The step result is created > 0 or deleted > 0. -/
def localCreateStep (pr : FPath → Option String) (fv : Assoc (List (String × FVMeta)))
    (lv : Assoc LVData) (disk : FPath → Bool) (backends : List (String → Bool)) :
    CreateLoopState × Nat × Bool :=
  let del := createDeletionPhase fv lv disk
  let potential := (fv.map Prod.fst).filter (fun p => !assocHas del.2.1 p)
  let st := createLoop pr fv backends 20 potential ⟨del.2.1, del.1, 0⟩
  (st, del.2.2, st.created > 0 || del.2.2 > 0)

/-- Whether path p has a LocalVersion after the given actions, starting
from the given initial presence. -/
def lvPresentAfter (es : List CreateEvent) (p : FPath) (init : Bool) : Bool :=
  es.foldl
    (fun acc e =>
      match e with
      | .lvInsert q _ => if q == p then true else acc
      | .lvDelete q => if q == p then false else acc
      | _ => acc)
    init

/-- Whether the file at path p exists on disk after the given actions,
starting from the given initial presence. -/
def filePresentAfter (es : List CreateEvent) (p : FPath) (init : Bool) : Bool :=
  es.foldl
    (fun acc e =>
      match e with
      | .rename _ q => if q == p then true else acc
      | .unlink q => if q == p then false else acc
      | _ => acc)
    init

/-!
The content-upload operator, operators/content_upload.py, and the
operator loop interval policy, operators/base.py.
-/

/-- One backend as the content-upload step sees it: its name, its
content_list result, and whether content_upload of a given hash succeeds
(a False models the BackendError caught at content_upload.py:43). -/
structure UploadBackend where
  name : String
  contents : List String
  uploadOk : String → Bool

/-- all_content_hashes of datastore.py:146-151: the non-null content
hashes across all LocalVersions, as a deduplicated list. -/
def allContentHashes (lv : Assoc LVData) : List String :=
  (lv.filterMap (fun e => e.2.content_hash)).dedup

/-- by_content_hash of datastore.py:137-144: the first store entry whose
content hash matches. -/
def byContentHash (lv : Assoc LVData) (h : String) : Option (FPath × LVData) :=
  lv.find? (fun e => e.2.content_hash == some h)

/-- Embedding of ContentUploadOperator.step, content_upload.py:12-53.
For each backend the hashes present locally but missing remotely are
uploaded one by one (a vanished LocalVersion or a failed upload logs and
continues); the successful uploads are returned as (backend name, hash)
pairs. The uploaded counter is initialized at content_upload.py:13 and
never incremented, and the step returns uploaded > 0 at
content_upload.py:53. -/
def contentUploadStep (lv : Assoc LVData) (backends : List UploadBackend) :
    List (String × String) × Bool :=
  let uploaded := 0
  let localHashes := allContentHashes lv
  let performed :=
    backends.foldl
      (fun acc b =>
        let missing := localHashes.filter (fun h => !b.contents.contains h)
        acc ++ missing.filterMap
          (fun h =>
            match byContentHash lv h with
            | none => none
            | some _ => if b.uploadOk h then some (b.name, h) else none))
      []
  (performed, uploaded > 0)

/-- The interval update of the operator loop, operators/base.py:28-32: a
step that did work resets the interval to the short one, a step that did
not doubles it up to the long one. -/
def operatorNextInterval (active : Bool) (intervalShort intervalLong interval : ℚ) : ℚ :=
  if active then intervalShort else min (interval * 2) intervalLong

/-!
Local backend content upload, backends/local.py.
-/

/-- Result of LocalBackend.content_upload on the content store: the bytes
stored at the content path of the uploaded hash, keyed by hash, the
extra_content_known set, and whether BackendError was raised. -/
structure LocalUploadResult where
  store : String → Option Bytes
  extra_content_known : List String
  raised : Bool

/-- Embedding of backends/local.py:51-62, LocalBackend.content_upload,
given the bytes read from disk_path. The source copies the file to the
content path, recomputes the SHA-256 of the copied file, and on mismatch
unlinks the copy and raises BackendError; on a match the hash joins
extra_content_known. sha256 is the hash function applied to the copied
bytes. -/
def localContentUpload (sha256 : Bytes → String) (store : String → Option Bytes)
    (extra : List String) (sha256sum : String) (source : Bytes) : LocalUploadResult :=
  let copied : String → Option Bytes := fun k => if k = sha256sum then some source else store k
  let actualHash := sha256 source
  if actualHash ≠ sha256sum then
    { store := fun k => if k = sha256sum then none else store k
      extra_content_known := extra
      raised := true }
  else
    { store := copied
      extra_content_known := extra.insert sha256sum
      raised := false }

/-!
The local scanner deletion pass, operators/local_scanner.py.
-/

/-- Embedding of local_scanner.py:45-57, the handling of paths present in
the LocalVersion store but not seen during the walk. Both branches of the
policy test only log: the propagation of a deletion FileVersion is the
TODO at local_scanner.py:50, and the branch for other policies does not
touch the LocalVersion store either. The FileVersion store, the
LocalVersion store, and the deleted counter are returned. -/
def scannerDeletionPass (pr : FPath → Option String)
    (fv : Assoc (List (String × FVMeta))) (lv : Assoc LVData)
    (seen : List FPath) : Assoc (List (String × FVMeta)) × Assoc LVData × Nat :=
  let deletedP := (lv.map Prod.fst).filter (fun p => !seen.contains p)
  deletedP.foldl
    (fun acc path =>
      if resolveStatus pr path = "full" then
        (acc.1, acc.2.1, acc.2.2 + 1)
      else
        (acc.1, acc.2.1, acc.2.2 + 1))
    (fv, lv, 0)

/-- A small concrete authenticated cipher used to instantiate the stream
theorems on concrete inputs: the ciphertext is the plaintext followed by a
14-byte tag (a marker, the plaintext length, and the nonce), and
decryption accepts exactly the well-formed ciphertexts. -/
def cipherW : Cipher where
  enc := fun n p => p ++ [42, p.length % 256] ++ n
  dec := fun n c =>
    if 14 ≤ c.length then
      let q := c.take (c.length - 14)
      if c.drop (c.length - 14) = [42, q.length % 256] ++ n then some q else none
    else none

end Firmament

namespace Firmament

/-!
Theorems. Each claim-level theorem carries the claim id in its doc
comment; the lemmas before them are shared supporting facts.
-/

/-- C3: the claim says resolve_status falls back to the nearest ancestor
including the root, so that a single entry mapping the root to full makes
resolve_status of /a.txt return full. The source walk stops as soon as the
path equals its own parent, which is already true at the root, so a root
entry is never consulted: with the store holding only a root entry, both
/a.txt and the root itself resolve to the default on-demand. -/
theorem resolve_status_ignores_root_entry :
    resolveStatus (fun p => if p = [] then some "full" else none) ["a.txt"] = "on-demand" ∧
    resolveStatus (fun p => if p = [] then some "full" else none) [] = "on-demand" := by
  decide

/-- C2: the claim says the scanner writes a deleted-sentinel FileVersion
for a vanished path with a full policy and removes the LocalVersion for
any other policy. The source only logs in both branches (the FileVersion
write is the TODO at local_scanner.py:50), so the pass leaves the
FileVersion store and the LocalVersion store unchanged for every input,
and merely counts the vanished paths. -/
theorem scanner_deletion_pass_is_noop (pr : FPath → Option String)
    (fv : Assoc (List (String × FVMeta))) (lv : Assoc LVData) (seen : List FPath) :
    (scannerDeletionPass pr fv lv seen).1 = fv ∧
    (scannerDeletionPass pr fv lv seen).2.1 = lv ∧
    (scannerDeletionPass pr fv lv seen).2.2 =
      ((lv.map Prod.fst).filter (fun p => !seen.contains p)).length := by
  have go : ∀ (ps : List FPath) (n : Nat),
      ps.foldl
        (fun acc path =>
          if resolveStatus pr path = "full" then (acc.1, acc.2.1, acc.2.2 + 1)
          else (acc.1, acc.2.1, acc.2.2 + 1))
        ((fv, lv, n) : Assoc (List (String × FVMeta)) × Assoc LVData × Nat) =
        (fv, lv, n + ps.length) := by
    intro ps
    induction ps with
    | nil => intro n; simp
    | cons p ps ih =>
      intro n
      rw [List.foldl_cons, ite_self]
      have harith : n + (p :: ps).length = n + 1 + ps.length := by
        simp only [List.length_cons]
        omega
      rw [harith]
      exact ih (n + 1)
  unfold scannerDeletionPass
  rw [go]
  simp

/-- C6 counterexample: the claim covers every non-null expected version,
but the source guards the HEAD check with the Python truthiness test, so
an empty-string expected version skips the check entirely: with the remote
object at ETag abc and expected version the empty string, the PUT is
issued with no VersionError even though the versions differ. -/
theorem s3_write_empty_expected_version_puts :
    s3RemoteWrite (some "abc") (some "") "zzz" =
      ⟨some "zzz", true, none⟩ := by
  decide

/-- C6 amended: for every non-null and non-empty expected version, a HEAD
observing a missing object or a different ETag makes remote_write_io raise
VersionError with no PUT issued and the remote unchanged, and a PUT is
issued only when the observed ETag equals the expected version. -/
theorem s3_write_version_guard (cur : Option String) (v newTag : String)
    (hv : v ≠ "") :
    ((cur = none ∨ cur ≠ some v) →
      s3RemoteWrite cur (some v) newTag = ⟨cur, false, some .versionError⟩) ∧
    ((s3RemoteWrite cur (some v) newTag).putIssued = true → cur = some v) := by
  unfold s3RemoteWrite
  simp only [Option.getD_some, hv, ne_eq, not_false_eq_true, if_true]
  cases cur with
  | none => simp
  | some t =>
    by_cases ht : t = v
    · subst ht
      simp
    · simp [ht]

/-- C6 amended, witness at a matching ETag. -/
theorem s3_write_version_guard_witness :
    (((some "e1" : Option String) = none ∨ (some "e1" : Option String) ≠ some "e1") →
      s3RemoteWrite (some "e1") (some "e1") "e2" = ⟨some "e1", false, some .versionError⟩) ∧
    ((s3RemoteWrite (some "e1") (some "e1") "e2").putIssued = true →
      (some "e1" : Option String) = some "e1") :=
  s3_write_version_guard (some "e1") "e1" "e2" (by decide)

/-- C9: the content-upload step initializes its uploaded counter and never
increments it, so it reports no work for every store state and backend
set, even though a step can perform uploads; under the operator loop
interval update a step that reports no work always takes the back-off
branch, never the short-interval reset. -/
theorem content_upload_step_no_work (lv : Assoc LVData) (backends : List UploadBackend) :
    (contentUploadStep lv backends).2 = false ∧
    (∀ short long i : ℚ,
      operatorNextInterval (contentUploadStep lv backends).2 short long i =
        min (i * 2) long) ∧
    (∃ lv0 : Assoc LVData, ∃ bs0 : List UploadBackend,
      (contentUploadStep lv0 bs0).1 ≠ [] ∧ (contentUploadStep lv0 bs0).2 = false) := by
  refine ⟨rfl, fun short long i => rfl, ?_⟩
  refine ⟨[(["a"], ⟨some "h1", 0, 0, none⟩)], [⟨"b1", [], fun _ => true⟩], ?_, rfl⟩
  decide

/-- C10: after the copy performed by the local content_upload, either the
stored bytes at the content path hash to the requested sum and the sum was
added to extra_content_known, or the content path holds no file and
extra_content_known is unchanged. -/
theorem local_content_upload_postcondition (sha256 : Bytes → String)
    (store : String → Option Bytes) (extra : List String)
    (sha256sum : String) (source : Bytes) :
    (∃ b, (localContentUpload sha256 store extra sha256sum source).store sha256sum = some b ∧
      sha256 b = sha256sum ∧
      sha256sum ∈ (localContentUpload sha256 store extra sha256sum source).extra_content_known) ∨
    ((localContentUpload sha256 store extra sha256sum source).store sha256sum = none ∧
      (localContentUpload sha256 store extra sha256sum source).extra_content_known = extra) := by
  by_cases h : sha256 source = sha256sum
  · left
    refine ⟨source, ?_, h, ?_⟩
    · simp [localContentUpload, h]
    · simp [localContentUpload, h, List.mem_insert_self]
  · right
    simp [localContentUpload, h]

lemma fvUploadGo_all_interfered (adv : Nat → Option FVSet) (s : FVSet) :
    ∀ (fuel i : Nat) (remote : FVSet),
      (∀ j, i ≤ j → j < i + fuel → (adv j).isSome = true) →
      fvUploadGo adv s remote i fuel = .raised := by
  intro fuel
  induction fuel with
  | zero => intro i remote _; rfl
  | succ n ih =>
    intro i remote h
    have hi : (adv i).isSome = true := h i le_rfl (by omega)
    obtain ⟨r', hr'⟩ := Option.isSome_iff_exists.mp hi
    rw [show fvUploadGo adv s remote i (n + 1) =
        (match adv i with
          | some interfering => fvUploadGo adv s interfering (i + 1) n
          | none => .ok (fvMerge remote s)) from rfl, hr']
    exact ih (i + 1) r' (fun j hj1 hj2 => h j (by omega) (by omega))

lemma fvPairMem_merge (a b : FVSet) (p h : String) :
    fvPairMem (fvMerge a b) p h ↔ fvPairMem a p h ∨ fvPairMem b p h := by
  unfold fvPairMem fvLookup2 fvMerge
  cases hb : b p with
  | none => simp
  | some inc =>
    cases hi : inc h with
    | some m => simp [hi]
    | none =>
      cases ha : a p with
      | none => simp [hi]
      | some ex => simp [hi]

lemma fvPairMem_foldl (r0 : FVSet) (ss : List FVSet) (p h : String) :
    fvPairMem (ss.foldl fvMerge r0) p h ↔
      fvPairMem r0 p h ∨ ∃ t ∈ ss, fvPairMem t p h := by
  induction ss generalizing r0 with
  | nil => simp
  | cons t ss ih =>
    rw [List.foldl_cons, ih, fvPairMem_merge]
    simp only [List.mem_cons]
    constructor
    · rintro ((h1 | h2) | ⟨u, hu, h3⟩)
      · exact Or.inl h1
      · exact Or.inr ⟨t, Or.inl rfl, h2⟩
      · exact Or.inr ⟨u, Or.inr hu, h3⟩
    · rintro (h1 | ⟨u, (rfl | hu), h3⟩)
      · exact Or.inl (Or.inl h1)
      · exact Or.inl (Or.inr h3)
      · exact Or.inr ⟨u, hu, h3⟩

/-- C1: file_version_upload reads the remote set, merges the argument in
by (path, content_hash) pairs with the argument meta overwriting, and
writes back with the observed version token. A run in which every one of
the 100 attempts loses the version race raises; a run whose attempt
observes no interference installs the merge of the remote it read with
the argument. Consequently, after a sequence of uploads that all succeed
against the current remote, a download returns exactly the pairs of the
initial remote set together with the pairs of every uploaded set. -/
theorem file_version_upload_retry_and_union (s r0 : FVSet) (ss : List FVSet)
    (adv : Nat → Option FVSet)
    (hadv : ∀ i, i < 100 → (adv i).isSome = true) :
    fvUpload adv s r0 = .raised ∧
    fvUpload (fun _ => none) s r0 = .ok (fvMerge r0 s) ∧
    (∀ p h, fvPairMem (fvDownload (fvUploadSeq r0 ss)) p h ↔
      (fvPairMem r0 p h ∨ ∃ t ∈ ss, fvPairMem t p h)) := by
  refine ⟨?_, rfl, ?_⟩
  · exact fvUploadGo_all_interfered adv s 100 0 r0 (fun j _ hj => hadv j (by omega))
  · intro p h
    exact fvPairMem_foldl r0 ss p h

/-- C1 witness: a concrete adversary that interferes on every attempt,
with concrete sets, discharging the interference hypothesis. -/
theorem file_version_upload_retry_and_union_witness :
    fvUpload (fun _ => some (fun _ => none)) (fun _ => none) (fun _ => none) = .raised ∧
    fvUpload (fun _ => none) (fun _ => none) (fun _ => none) =
      .ok (fvMerge (fun _ => none) (fun _ => none)) ∧
    (∀ p h, fvPairMem (fvDownload (fvUploadSeq (fun _ => none) [])) p h ↔
      (fvPairMem (fun _ => none) p h ∨ ∃ t ∈ ([] : List FVSet), fvPairMem t p h)) :=
  file_version_upload_retry_and_union (fun _ => none) (fun _ => none) []
    (fun _ => some (fun _ => none)) (fun _ _ => rfl)

/-- C7: the claim says a step downloads and creates at most 20 files. The
break at local_create.py:35 tests `created > self.max_per_loop` only after
the increment has already passed 20, so a step with 22 eligible paths (all
policies full, the content held by a backend, nothing yet local) creates
21 files. -/
theorem local_create_cap_off_by_one :
    (localCreateStep (fun _ => some "full")
      ((List.range 22).map (fun i => ([toString i], [("h", FVMeta.mk 1 1)])))
      [] (fun _ => false) [fun _ => true]).1.created = 21 := by
  decide

/-- C8 counterexample: materializing /b.txt from a FileVersion with hash
h1 produces the actions download, set mtime, LocalVersion insert, rename,
in that order; after the first three actions the LocalVersion for the path
exists while the target file is still absent from disk, contradicting the
claimed rename-before-insert order and its never-inconsistent invariant. -/
theorem local_create_inserts_before_rename :
    (localCreateStep (fun _ => some "full") [(["b.txt"], [("h1", FVMeta.mk 5 3)])]
      [] (fun _ => false) [fun _ => true]).1.events =
      [.download "h1" (tempDestination ["b.txt"]),
       .setMtime (tempDestination ["b.txt"]) 5,
       .lvInsert ["b.txt"] (LVData.mk none 5 3 none),
       .rename (tempDestination ["b.txt"]) ["b.txt"]] ∧
    lvPresentAfter
      ((localCreateStep (fun _ => some "full") [(["b.txt"], [("h1", FVMeta.mk 5 3)])]
        [] (fun _ => false) [fun _ => true]).1.events.take 3) ["b.txt"] false = true ∧
    filePresentAfter
      ((localCreateStep (fun _ => some "full") [(["b.txt"], [("h1", FVMeta.mk 5 3)])]
        [] (fun _ => false) [fun _ => true]).1.events.take 3) ["b.txt"] false = false := by
  decide

/-- C8 amended: for every path the step materializes (policy neither
on-demand nor ignore, a most recent non-deleted content, some backend
holding it), the actions are: download into the sibling temporary file
with the .firmament-temp. name prefix, set its mtime from the FileVersion
metadata, insert a LocalVersion with null content_hash, and then rename
the temporary file over the target; the LocalVersion insert precedes the
rename, so between the two the LocalVersion exists while the target may
still be absent. -/
theorem local_create_materialize_order (pr : FPath → Option String)
    (fv : Assoc (List (String × FVMeta))) (backends : List (String → Bool))
    (st : CreateLoopState) (path : FPath) (h : String) (meta : FVMeta)
    (hs1 : resolveStatus pr path ≠ "on-demand")
    (hs2 : resolveStatus pr path ≠ "ignore")
    (hmr : mostRecentContentOf fv path = some (h, meta))
    (hdel : h ≠ DELETED_CONTENT_HASH)
    (hb : (backends.find? (fun exists_ => exists_ h)).isSome = true) :
    createOnePath pr fv backends st path =
      { lv := assocSet st.lv path (LVData.mk none meta.mtime meta.size none)
        events := st.events ++
          [.download h (tempDestination path),
           .setMtime (tempDestination path) meta.mtime,
           .lvInsert path (LVData.mk none meta.mtime meta.size none),
           .rename (tempDestination path) path]
        created := st.created + 1 } := by
  obtain ⟨b, hbv⟩ := Option.isSome_iff_exists.mp hb
  unfold createOnePath
  rw [hmr]
  simp [hs1, hs2, hdel, hbv]

/-- C8 amended, witness at a concrete single-path state. -/
theorem local_create_materialize_order_witness :
    createOnePath (fun _ => some "full") [(["b.txt"], [("h1", FVMeta.mk 5 3)])]
      [fun _ => true] (CreateLoopState.mk [] [] 0) ["b.txt"] =
      { lv := assocSet [] ["b.txt"] (LVData.mk none 5 3 none)
        events := [] ++
          [.download "h1" (tempDestination ["b.txt"]),
           .setMtime (tempDestination ["b.txt"]) 5,
           .lvInsert ["b.txt"] (LVData.mk none 5 3 none),
           .rename (tempDestination ["b.txt"]) ["b.txt"]]
        created := 0 + 1 } :=
  local_create_materialize_order (fun _ => some "full")
    [(["b.txt"], [("h1", FVMeta.mk 5 3)])] [fun _ => true]
    (CreateLoopState.mk [] [] 0) ["b.txt"] "h1" (FVMeta.mk 5 3)
    (by decide) (by decide) (by decide) (by decide) rfl

lemma be32_u32be (n : Nat) (h : n < 2 ^ 32) : be32 (u32be n) = n := by
  simp only [be32, u32be]
  omega

lemma chunksOfLoop_flatten (cs : Nat) (hcs : 0 < cs) :
    ∀ (fuel : Nat) (p : Bytes), p.length ≤ fuel →
      (chunksOfLoop cs fuel p).flatten = p := by
  intro fuel
  induction fuel with
  | zero =>
    intro p hp
    have : p = [] := List.length_eq_zero.mp (Nat.le_zero.mp hp)
    subst this
    rfl
  | succ m ih =>
    intro p hp
    by_cases hpe : p = []
    · subst hpe
      simp [chunksOfLoop]
    · have hcond : ¬(p = [] ∨ cs = 0) := by
        simp [hpe]
        omega
      simp only [chunksOfLoop, hcond, if_false, List.flatten_cons]
      rw [ih (p.drop cs) (by
        have hplen : 0 < p.length := List.length_pos.mpr hpe
        simp [List.length_drop]
        omega)]
      exact List.take_append_drop cs p

lemma chunksOf_flatten (cs : Nat) (hcs : 0 < cs) (p : Bytes) :
    (chunksOf cs p).flatten = p :=
  chunksOfLoop_flatten cs hcs p.length p le_rfl

lemma decStreamLoop_fuel_irrel (C : Cipher) :
    ∀ (fuel fuel' : Nat) (rem : Bytes), rem.length ≤ fuel → rem.length ≤ fuel' →
      decStreamLoop C fuel rem = decStreamLoop C fuel' rem := by
  intro fuel
  induction fuel with
  | zero =>
    intro fuel' rem h h'
    have : rem = [] := List.length_eq_zero.mp (Nat.le_zero.mp h)
    subst this
    cases fuel' <;> simp [decStreamLoop]
  | succ m ih =>
    intro fuel' rem h h'
    cases fuel' with
    | zero =>
      have : rem = [] := List.length_eq_zero.mp (Nat.le_zero.mp h')
      subst this
      simp [decStreamLoop]
    | succ m' =>
      by_cases hrem : rem = []
      · subst hrem
        simp [decStreamLoop]
      · by_cases h4 : rem.length < 4
        · simp [decStreamLoop, hrem, h4]
        · simp only [decStreamLoop, hrem, h4, if_false]
          cases hdec : C.dec (((rem.drop 4).take (be32 (rem.take 4))).take 12)
              (((rem.drop 4).take (be32 (rem.take 4))).drop 12) with
          | none => rfl
          | some pt =>
            have hlen : ((rem.drop 4).drop (be32 (rem.take 4))).length ≤ m ∧
                ((rem.drop 4).drop (be32 (rem.take 4))).length ≤ m' := by
              simp only [List.length_drop]
              omega
            rw [ih m' ((rem.drop 4).drop (be32 (rem.take 4))) hlen.1 hlen.2]

lemma decStreamLoop_frame (C : Cipher) (n c rest : Bytes) (fuel : Nat)
    (hn : n.length = 12) (hd : C.dec n (C.enc n c) = some c)
    (hl : 12 + (C.enc n c).length < 2 ^ 32)
    (hfuel : (encChunk C n c ++ rest).length ≤ fuel) :
    decStreamLoop C fuel (encChunk C n c ++ rest) =
      match decStream C rest with
      | .ok tl => .ok (c ++ tl)
      | .error e => .error e := by
  have hu32len : ∀ x : Nat, (u32be x).length = 4 := fun _ => rfl
  have hu32 : (u32be (n ++ C.enc n c).length).length = 4 := rfl
  have hD : (n ++ C.enc n c).length = 12 + (C.enc n c).length := by
    simp [hn]
  have hS : encChunk C n c ++ rest =
      u32be (n ++ C.enc n c).length ++ ((n ++ C.enc n c) ++ rest) := by
    simp [encChunk, List.append_assoc]
  have hSlen : (encChunk C n c ++ rest).length =
      4 + ((n ++ C.enc n c).length + rest.length) := by
    rw [hS]
    simp [hu32len]
    omega
  obtain ⟨m, rfl⟩ : ∃ m, fuel = m + 1 := ⟨fuel - 1, by omega⟩
  rw [hS]
  have hne : u32be (n ++ C.enc n c).length ++ ((n ++ C.enc n c) ++ rest) ≠ [] := by
    simp [u32be]
  have h4 : ¬((u32be (n ++ C.enc n c).length ++ ((n ++ C.enc n c) ++ rest)).length < 4) := by
    rw [List.length_append, hu32]
    omega
  simp only [decStreamLoop, hne, h4, if_false]
  rw [List.take_left' hu32, List.drop_left' hu32,
    be32_u32be _ (by omega),
    List.take_left, List.take_left' hn, List.drop_left' hn, hd,
    List.drop_left]
  have hrec : decStreamLoop C m rest = decStream C rest := by
    apply decStreamLoop_fuel_irrel
    · omega
    · exact le_rfl
  rw [hrec]

lemma decStream_frames (C : Cipher) (l : List (Bytes × Bytes)) (t : Bytes)
    (hn : ∀ nc ∈ l, (nc.1 : Bytes).length = 12)
    (hd : ∀ nc ∈ l, C.dec nc.1 (C.enc nc.1 nc.2) = some nc.2)
    (hl : ∀ nc ∈ l, 12 + (C.enc nc.1 nc.2).length < 2 ^ 32) :
    decStream C (encFrames C l ++ t) =
      match decStream C t with
      | .ok tl => .ok ((l.map Prod.snd).flatten ++ tl)
      | .error e => .error e := by
  induction l with
  | nil =>
    simp only [encFrames, List.map_nil, List.flatten_nil, List.nil_append]
    cases decStream C t <;> simp
  | cons nc l ih =>
    have hframes : encFrames C (nc :: l) ++ t =
        encChunk C nc.1 nc.2 ++ (encFrames C l ++ t) := by
      simp [encFrames, List.append_assoc]
    rw [hframes, decStream,
      decStreamLoop_frame C nc.1 nc.2 (encFrames C l ++ t) _
        (hn nc (List.mem_cons_self nc l)) (hd nc (List.mem_cons_self nc l))
        (hl nc (List.mem_cons_self nc l)) le_rfl,
      ih (fun x hx => hn x (List.mem_cons_of_mem nc hx))
        (fun x hx => hd x (List.mem_cons_of_mem nc hx))
        (fun x hx => hl x (List.mem_cons_of_mem nc hx))]
    cases decStream C t <;> simp

/-- C4: decrypting the chunked stream produced by encrypting any plaintext
recovers exactly that plaintext, for every positive chunk size (hence for
the empty plaintext, a single chunk, and several chunks plus a partial
one), for every per-chunk nonce sequence of 12-byte nonces, and for every
cipher that round-trips each produced chunk and keeps each framed chunk
length inside the 4-byte big-endian prefix. -/
theorem aes_stream_roundtrip (C : Cipher) (nonces : Nat → Bytes) (cs : Nat) (p : Bytes)
    (hcs : 0 < cs)
    (hn : ∀ ic ∈ (chunksOf cs p).enum, (nonces ic.1).length = 12)
    (hd : ∀ ic ∈ (chunksOf cs p).enum,
      C.dec (nonces ic.1) (C.enc (nonces ic.1) ic.2) = some ic.2)
    (hl : ∀ ic ∈ (chunksOf cs p).enum,
      12 + (C.enc (nonces ic.1) ic.2).length < 2 ^ 32) :
    decStream C (encStream C nonces cs p) = .ok p := by
  have hmain := decStream_frames C
    ((chunksOf cs p).enum.map (fun ic => (nonces ic.1, ic.2))) []
    (by
      intro nc hnc
      obtain ⟨ic, hic, rfl⟩ := List.mem_map.mp hnc
      exact hn ic hic)
    (by
      intro nc hnc
      obtain ⟨ic, hic, rfl⟩ := List.mem_map.mp hnc
      exact hd ic hic)
    (by
      intro nc hnc
      obtain ⟨ic, hic, rfl⟩ := List.mem_map.mp hnc
      exact hl ic hic)
  rw [List.append_nil] at hmain
  have hsnd : (((chunksOf cs p).enum.map (fun ic => (nonces ic.1, ic.2))).map
      Prod.snd) = chunksOf cs p := by
    rw [List.map_map]
    exact List.enum_map_snd (chunksOf cs p)
  rw [show encStream C nonces cs p =
      encFrames C ((chunksOf cs p).enum.map (fun ic => (nonces ic.1, ic.2))) from rfl]
  rw [hmain, hsnd]
  simp [chunksOf_flatten cs hcs p, decStream, decStreamLoop]

/-- C4 witness: a concrete two-chunk round trip (one full chunk and one
partial chunk) through the concrete cipher. -/
theorem aes_stream_roundtrip_witness :
    decStream cipherW (encStream cipherW (fun _ => List.replicate 12 0) 2 [1, 2, 3]) =
      .ok [1, 2, 3] :=
  aes_stream_roundtrip cipherW (fun _ => List.replicate 12 0) 2 [1, 2, 3]
    (by decide) (by decide) (by decide) (by decide)

lemma decStream_truncated_frame (C : Cipher) (n c : Bytes) (k : Nat)
    (hn : n.length = 12) (hl : 12 + (C.enc n c).length < 2 ^ 32)
    (hfail : ∀ j, j < (n ++ C.enc n c).length →
      C.dec (((n ++ C.enc n c).take j).take 12) (((n ++ C.enc n c).take j).drop 12) = none)
    (hk0 : 0 < k) (hkF : k < (encChunk C n c).length) :
    decStream C ((encChunk C n c).take k) =
      .error (if k < 4 then .structError else .authError) := by
  have hu32 : (u32be (n ++ C.enc n c).length).length = 4 := rfl
  have hD : (n ++ C.enc n c).length = 12 + (C.enc n c).length := by
    simp [hn]
  have hFlen : (encChunk C n c).length = 4 + (n ++ C.enc n c).length := by
    simp only [encChunk]
    rw [List.length_append, hu32]
  have hSdef : (encChunk C n c).take k =
      (u32be (n ++ C.enc n c).length ++ (n ++ C.enc n c)).take k := rfl
  by_cases hk4 : k < 4
  · -- a 1 to 3 byte remainder of the length prefix: struct.error
    have hS : (encChunk C n c).take k = (u32be (n ++ C.enc n c).length).take k := by
      rw [hSdef, List.take_append_eq_append_take,
        show k - (u32be (n ++ C.enc n c).length).length = 0 by rw [hu32]; omega,
        List.take_zero, List.append_nil]
    have hSlen : ((encChunk C n c).take k).length = k := by
      rw [hS, List.length_take, hu32]
      omega
    have hne : (encChunk C n c).take k ≠ [] := by
      intro he
      rw [he] at hSlen
      simp at hSlen
      omega
    obtain ⟨m, hm⟩ : ∃ m, ((encChunk C n c).take k).length = m + 1 := by
      refine ⟨k - 1, ?_⟩
      rw [hSlen]
      omega
    rw [decStream, hm]
    have h4 : ((encChunk C n c).take k).length < 4 := by
      rw [hSlen]
      omega
    simp only [decStreamLoop, hne, h4, if_true, if_false, ite_self]
    simp [hk4]
  · -- the length prefix is complete but the chunk body is short: InvalidTag
    have hkD : k - 4 < (n ++ C.enc n c).length := by omega
    have hS : (encChunk C n c).take k =
        u32be (n ++ C.enc n c).length ++ (n ++ C.enc n c).take (k - 4) := by
      rw [hSdef, List.take_append_eq_append_take, hu32,
        List.take_of_length_le (by rw [hu32]; omega)]
    have hDlen : ((n ++ C.enc n c).take (k - 4)).length = k - 4 := by
      rw [List.length_take]
      omega
    have hSlen : ((encChunk C n c).take k).length = k := by
      rw [List.length_take]
      omega
    have hne : (encChunk C n c).take k ≠ [] := by
      intro he
      rw [he] at hSlen
      simp at hSlen
      omega
    obtain ⟨m, hm⟩ : ∃ m, ((encChunk C n c).take k).length = m + 1 := by
      refine ⟨k - 1, ?_⟩
      rw [hSlen]
      omega
    rw [decStream, hm, hS]
    have hne2 : u32be (n ++ C.enc n c).length ++ (n ++ C.enc n c).take (k - 4) ≠ [] := by
      rw [← hS]
      exact hne
    have h4 : ¬((u32be (n ++ C.enc n c).length ++ (n ++ C.enc n c).take (k - 4)).length < 4) := by
      rw [List.length_append, hu32]
      omega
    simp only [decStreamLoop, hne2, h4, if_false]
    have hcd : ((n ++ C.enc n c).take (k - 4)).take (n ++ C.enc n c).length =
        (n ++ C.enc n c).take (k - 4) :=
      List.take_of_length_le (by rw [hDlen]; omega)
    rw [List.take_left' hu32, List.drop_left' hu32,
      be32_u32be _ (by omega), hcd,
      hfail (k - 4) hkD]
    simp [hk4]

/-- C5 counterexample: the claim says every mid-chunk truncation fails
with an authentication error. Truncating an encrypted stream to 2 bytes
leaves fewer than 4 bytes of the length prefix, and the read then fails
with the struct unpacking error of encryptors/aes.py:95, which is not the
authentication error of aes.py:102. -/
theorem truncated_length_prefix_raises_struct_not_auth :
    decStream cipherW
        ((encStream cipherW (fun _ => List.replicate 12 0) 1024 [1, 2]).take 2) =
      .error .structError ∧ DecErr.structError ≠ DecErr.authError :=
  ⟨rfl, by decide⟩

/-- C5 amended: reading a stream of well-formed chunks followed by a
truncated chunk fails without returning the partial plaintext of the
truncated chunk: with 1 to 3 bytes of the length prefix remaining it
fails with the struct unpacking error, and with a complete length prefix
but a chunk body shorter than its declared length it fails with an
authentication error; positioned exactly at a chunk boundary (a zero-byte
remainder) the read is a clean EOF returning just the preceding chunks. -/
theorem aes_stream_truncation (C : Cipher) (l : List (Bytes × Bytes))
    (n c : Bytes) (k : Nat)
    (hns : ∀ nc ∈ l, (nc.1 : Bytes).length = 12)
    (hds : ∀ nc ∈ l, C.dec nc.1 (C.enc nc.1 nc.2) = some nc.2)
    (hls : ∀ nc ∈ l, 12 + (C.enc nc.1 nc.2).length < 2 ^ 32)
    (hn : n.length = 12) (hl : 12 + (C.enc n c).length < 2 ^ 32)
    (hfail : ∀ j, j < (n ++ C.enc n c).length →
      C.dec (((n ++ C.enc n c).take j).take 12) (((n ++ C.enc n c).take j).drop 12) = none)
    (hkF : k < (encChunk C n c).length) :
    decStream C (encFrames C l ++ (encChunk C n c).take k) =
      if k = 0 then .ok ((l.map Prod.snd).flatten)
      else .error (if k < 4 then .structError else .authError) := by
  rw [decStream_frames C l _ hns hds hls]
  by_cases hk0 : k = 0
  · subst hk0
    simp [decStream, decStreamLoop]
  · rw [decStream_truncated_frame C n c k hn hl hfail (Nat.pos_of_ne_zero hk0) hkF]
    simp [hk0]

/-- C5 amended, witness: one complete frame followed by a chunk truncated
10 bytes in, which decrypts the complete frame and then fails with the
authentication error. -/
theorem aes_stream_truncation_witness :
    decStream cipherW
        (encFrames cipherW [(List.replicate 12 0, [7])] ++
          (encChunk cipherW (List.replicate 12 0) [1, 2]).take 10) =
      if 10 = 0 then .ok (([(List.replicate 12 0, [7])].map Prod.snd).flatten)
      else .error (if 10 < 4 then .structError else .authError) :=
  aes_stream_truncation cipherW [(List.replicate 12 0, [7])]
    (List.replicate 12 0) [1, 2] 10
    (by decide) (by decide) (by decide) (by decide) (by decide) (by decide) (by decide)

end Firmament
